import Mathlib

set_option autoImplicit false

/-
Verification of the executor layer of this apscheduler fork
(`apscheduler/executors/base.py`, `base_py3.py`, `asyncio.py`).

The Python code is embedded shallowly:

* times are integers (seconds); `datetime.now(utc)` inside the run loop is a
  `clock` function from the loop position to the current time, one reading per
  iteration, and `timedelta` comparison is integer comparison;
* the job callable `job.func(*job.args, **job.kwargs)` is a function from the
  invocation count so far to an outcome (a returned value, or a raised
  exception together with the frames that `traceback.format_tb` renders);
* the executor's mutable state (the `_instances` defaultdict, plus the job
  store's submission records and the scheduler's dispatched events, which the
  executor drives through its collaborators) is an explicit `ExecState` value,
  and the body of each lock-protected critical section is one state
  transition function;
* Python exceptions that escape a modelled function are `Except` results.
-/

namespace APScheduler

/-- Python values as far as this layer observes them: argument and return
values flow through the executor opaquely. -/
inductive PyVal where
  | vnone : PyVal
  | vint : Int → PyVal
  | vstr : String → PyVal
  deriving DecidableEq, Repr

/-- A Python exception object, identified by its class name and message. -/
structure PyExc where
  clsName : String
  msg : String
  deriving DecidableEq, Repr

/-- Outcome of one invocation of the job callable: a returned value, or a
raised exception together with the traceback frames that the standard
library's `traceback.format_tb` would render (modelled as the rendered
lines, so that `''.join(format_tb(tb))` is `String.join`). -/
inductive FuncResult where
  | ok : PyVal → FuncResult
  | exn : PyExc → List String → FuncResult
  deriving DecidableEq, Repr

/-- Modelled from the spec: the event codes `EVENT_JOB_MISSED`,
`EVENT_JOB_ERROR` and `EVENT_JOB_EXECUTED` of `apscheduler.events`, a module
of this repository that is not among the sources here. -/
inductive EventCode where
  | missed : EventCode
  | error : EventCode
  | executed : EventCode
  deriving DecidableEq, Repr

/-- Modelled from the spec: `JobExecutionEvent` of `apscheduler.events` (not
among the sources here) as the constructor calls in `base.py` and
`base_py3.py` use it: a code, the job id, the job store alias, the concerned
run time, and as payload a return value for executed events and an exception
plus formatted traceback for error events. -/
structure JobExecutionEvent where
  code : EventCode
  jobId : String
  jobstoreAlias : String
  runTime : Int
  retval : Option PyVal := none
  exception : Option PyExc := none
  traceback : Option String := none
  deriving DecidableEq, Repr

/-- The job fields this layer reads: `job.id`, `job.max_instances`,
`job.misfire_grace_time` (optional, in seconds) and whether
`iscoroutinefunction(job.func)` holds. The callable itself is passed
separately, as a function from the invocation count to an outcome. -/
structure Job where
  id : String
  maxInstances : Nat
  misfireGraceTime : Option Nat
  isCoroutine : Bool
  deriving DecidableEq, Repr

/-- The misfire test of `run_job`: with `misfire_grace_time` set, a run time
is missed when `datetime.now(utc) - run_time` exceeds
`timedelta(seconds=job.misfire_grace_time)` strictly; with it unset the test
is skipped altogether. -/
def misfired (job : Job) (now runTime : Int) : Bool :=
  match job.misfireGraceTime with
  | some g => decide (now - runTime > (g : Int))
  | none => false

/-- The event `JobExecutionEvent(EVENT_JOB_MISSED, job.id, jobstore_alias, run_time)`. -/
def missedEvent (job : Job) (a : String) (runTime : Int) : JobExecutionEvent :=
  { code := EventCode.missed, jobId := job.id, jobstoreAlias := a, runTime := runTime }

/-- The event `JobExecutionEvent(EVENT_JOB_EXECUTED, ..., retval=retval)`. -/
def executedEvent (job : Job) (a : String) (runTime : Int) (v : PyVal) : JobExecutionEvent :=
  { code := EventCode.executed, jobId := job.id, jobstoreAlias := a, runTime := runTime,
    retval := some v }

/-- The event `JobExecutionEvent(EVENT_JOB_ERROR, ..., exception=exc, traceback=formatted_tb)`. -/
def errorEvent (job : Job) (a : String) (runTime : Int) (e : PyExc) (tb : String) :
    JobExecutionEvent :=
  { code := EventCode.error, jobId := job.id, jobstoreAlias := a, runTime := runTime,
    exception := some e, traceback := some tb }

/-- What one call of the blocking runner produces: the returned event list,
the sequence of `state=` values it wrote through `update_job_submission` in
order, and the number of times the callable was invoked (so that a run judged
missed is observably not an invocation). -/
structure RunJobResult where
  events : List JobExecutionEvent
  stateWrites : List String
  invocations : Nat
  deriving DecidableEq, Repr

/-- Loop body of `run_job` from `generate_run_job_closure` in `base.py`,
recursing over the remaining run times; `i` is the loop position (for the
per-iteration clock reading) and `k` the number of invocations made so far.
A misfired run time contributes only a missed event; otherwise the record is
set to running, the callable invoked, and the outcome turned into an executed
event plus a success write, or an error event (with the exception and the
joined traceback) plus a failure write. The `invocations` field carries the
final invocation count. -/
def runJobAux (job : Job) (a : String) (clock : Nat → Int) (func : Nat → FuncResult) :
    Nat → Nat → List Int → RunJobResult
  | _, k, [] => ⟨[], [], k⟩
  | i, k, t :: ts =>
    if misfired job (clock i) t then
      let r := runJobAux job a clock func (i + 1) k ts
      ⟨missedEvent job a t :: r.events, r.stateWrites, r.invocations⟩
    else
      match func k with
      | FuncResult.ok v =>
        let r := runJobAux job a clock func (i + 1) (k + 1) ts
        ⟨executedEvent job a t v :: r.events,
          "running" :: "success" :: r.stateWrites, r.invocations⟩
      | FuncResult.exn e tb =>
        let r := runJobAux job a clock func (i + 1) (k + 1) ts
        ⟨errorEvent job a t e (String.join tb) :: r.events,
          "running" :: "failure" :: r.stateWrites, r.invocations⟩

/-- The blocking runner `run_job` of `base.py`: process the whole run time
list from loop position zero with no invocations yet. Its Lean type is total
because every outcome of the callable is handled inside the loop (the bare
`except:` of the source); nothing the callable raises escapes. -/
def runJob (job : Job) (a : String) (clock : Nat → Int) (func : Nat → FuncResult)
    (runTimes : List Int) : RunJobResult :=
  runJobAux job a clock func 0 0 runTimes

/-- The suspending runner `run_coroutine_job` of `base_py3.py`: one single run
time, no misfire check and no submission state writes; the callable is awaited
once and the outcome converted to one executed or error event, with the same
payloads as in the blocking runner. -/
def runCoroutineJob (job : Job) (a : String) (func : Nat → FuncResult) (runTime : Int) :
    RunJobResult :=
  match func 0 with
  | FuncResult.ok v => ⟨[executedEvent job a runTime v], [], 1⟩
  | FuncResult.exn e tb => ⟨[errorEvent job a runTime e (String.join tb)], [], 1⟩

/-- Lookup in an insertion-ordered association list, the embedding of a
Python dict (the `_instances` defaultdict maps job ids to lists of in-flight
submission ids). -/
def alistGet (m : List (String × List Nat)) (k : String) : Option (List Nat) :=
  match m with
  | [] => none
  | p :: rest => if p.1 = k then some p.2 else alistGet rest k

/-- Store a value under a key: update the existing entry in place, or append
a new entry at the end, as a Python dict does. -/
def alistSet (m : List (String × List Nat)) (k : String) (v : List Nat) :
    List (String × List Nat) :=
  match m with
  | [] => [(k, v)]
  | p :: rest => if p.1 = k then (k, v) :: rest else p :: alistSet rest k v

/-- Remove a key, the embedding of `del d[k]` (dict keys are unique, so
dropping every entry with the key is the same operation). -/
def alistDel (m : List (String × List Nat)) (k : String) : List (String × List Nat) :=
  match m with
  | [] => []
  | p :: rest => if p.1 = k then alistDel rest k else p :: alistDel rest k

/-- Value read by a defaultdict access `d[k]`: the stored list, or the
default `[]` produced by the factory `lambda: []` when the key is absent. -/
def ddGet (m : List (String × List Nat)) (k : String) : List Nat :=
  (alistGet m k).getD []

/-- Map after a defaultdict access `d[k]`: reading a missing key stores the
default under it. -/
def ddTouch (m : List (String × List Nat)) (k : String) : List (String × List Nat) :=
  if (alistGet m k).isSome then m else m ++ [(k, [])]

/-- State driven by one executor: the `_instances` defaultdict, the job
store's submission records (id and current state; creation and updates are
modelled from the spec's `add_job_submission` / `update_job_submission`
interface, those jobstore sources not being among the files here), the id the
store will assign next, and the events handed to the scheduler's
`_dispatch_event` in order. -/
structure ExecState where
  instances : List (String × List Nat)
  submissions : List (Nat × String)
  nextSubmissionId : Nat
  dispatched : List JobExecutionEvent
  deriving DecidableEq, Repr

/-- Modelled from the spec: `update_job_submission(submission_id, state=...)`
persists the new state on the record with that id. -/
def setSubmissionState (subs : List (Nat × String)) (sid : Nat) (st : String) :
    List (Nat × String) :=
  subs.map (fun p => if p.1 = sid then (p.1, st) else p)

/-- State currently persisted on a submission record. -/
def getSubmissionState (subs : List (Nat × String)) (sid : Nat) : Option String :=
  match subs with
  | [] => none
  | p :: rest => if p.1 = sid then some p.2 else getSubmissionState rest sid

/-- Message built by `MaxInstancesReachedError.__init__`. -/
def mkMaxInstancesMessage (jobId : String) (maxInstances : Nat) : String :=
  "Job \"" ++ jobId ++ "\" has already reached its maximum number of instances ("
    ++ toString maxInstances ++ ")"

/-- Message of the exception raised by `AsyncIOExecutor._do_submit_job` when a
coroutine callable arrives and `run_coroutine_job` could not be imported. -/
def trolliusMessage : String :=
  "Executing coroutine based jobs is not supported with Trollius"

/-- Exceptions that can escape `submit_job`: the `MaxInstancesReachedError`
(carrying the job id and ceiling it formats into its message), or the
dispatch exception propagating out of `_do_submit_job`. -/
inductive SubmitErr where
  | maxInstancesReached : String → Nat → String → SubmitErr
  | dispatch : String → SubmitErr
  deriving DecidableEq, Repr

/-- Dispatch decision of `AsyncIOExecutor._do_submit_job`: a coroutine
callable is scheduled on the loop when `run_coroutine_job` was importable
(`supportsCoroutines`), and otherwise the Trollius exception is raised; every
other callable goes to the loop's default executor. Scheduling itself is
asynchronous and has no further synchronous effect on the executor state. -/
def doSubmitJobOnLoop (supportsCoroutines : Bool) (job : Job) : Except String Unit :=
  if job.isCoroutine then
    if supportsCoroutines then Except.ok () else Except.error trolliusMessage
  else Except.ok ()

/-- Critical section of `BaseExecutor.submit_job` together with
`_prepare_job_submission`: read the in-flight list for the job id (a
defaultdict access), raise `MaxInstancesReachedError` when it has reached
`job.max_instances`, and otherwise create the pending record through
`add_job_submission`, append the new submission id to the job's entry and
hand off to `_do_submit_job` (whose exception, if any, propagates). The
function returns what the Python function returns: `None`, since
`submit_job` has no return statement. -/
def submitJob (supportsCoroutines : Bool) (job : Job) (s : ExecState) :
    Except SubmitErr (Option Nat) × ExecState :=
  let entry := ddGet s.instances job.id
  let m1 := ddTouch s.instances job.id
  if job.maxInstances ≤ entry.length then
    (Except.error (SubmitErr.maxInstancesReached job.id job.maxInstances
      (mkMaxInstancesMessage job.id job.maxInstances)), { s with instances := m1 })
  else
    let sid := s.nextSubmissionId
    let s1 : ExecState :=
      { s with
        instances := alistSet m1 job.id (entry ++ [sid])
        submissions := s.submissions ++ [(sid, "pending")]
        nextSubmissionId := sid + 1 }
    match doSubmitJobOnLoop supportsCoroutines job with
    | Except.ok _ => (Except.ok none, s1)
    | Except.error msg => (Except.error (SubmitErr.dispatch msg), s1)

/-- Release block shared by `_run_job_success` and `_run_job_error`: under
the lock, `self._instances[job_id].remove(job_instance_id)` (a defaultdict
access, then removal of the first occurrence) and deletion of the entry when
it became empty. -/
def releaseInstance (m : List (String × List Nat)) (jobId : String) (sid : Nat) :
    List (String × List Nat) :=
  if ((ddGet m jobId).erase sid).length = 0 then alistDel (ddTouch m jobId) jobId
  else alistSet (ddTouch m jobId) jobId ((ddGet m jobId).erase sid)

/-- Completion handler `BaseExecutor._run_job_success`: release the instance
entry, mark the record success, and dispatch every returned event through
the scheduler in order. Python's `list.remove` raises `ValueError` when the
id is not in the entry, which the embedding surfaces as an error result. -/
def runJobSuccessHandler (s : ExecState) (jobId : String) (sid : Nat)
    (events : List JobExecutionEvent) : Except String ExecState :=
  if sid ∈ ddGet s.instances jobId then
    Except.ok
      { s with
        instances := releaseInstance s.instances jobId sid
        submissions := setSubmissionState s.submissions sid "success"
        dispatched := s.dispatched ++ events }
  else Except.error "ValueError"

/-- Completion handler `BaseExecutor._run_job_error`: the same release block,
then the record is marked failure and the error logged; no events exist and
none are dispatched. -/
def runJobErrorHandler (s : ExecState) (jobId : String) (sid : Nat) :
    Except String ExecState :=
  if sid ∈ ddGet s.instances jobId then
    Except.ok
      { s with
        instances := releaseInstance s.instances jobId sid
        submissions := setSubmissionState s.submissions sid "failure" }
  else Except.error "ValueError"

/-- How the runner's completion reaches the executor in the done callback of
`AsyncIOExecutor._do_submit_job`: `f.result()` either yields the event list
or re-raises what escaped the runner call. -/
inductive Completion where
  | normal : List JobExecutionEvent → Completion
  | raised : PyExc → Completion
  deriving DecidableEq, Repr

/-- The done callback of `AsyncIOExecutor._do_submit_job`: a normal future
result is routed to `_run_job_success` with the events, a raised one to
`_run_job_error`. -/
def handleCompletion (s : ExecState) (jobId : String) (sid : Nat) :
    Completion → Except String ExecState
  | Completion.normal events => runJobSuccessHandler s jobId sid events
  | Completion.raised _ => runJobErrorHandler s jobId sid

/-- State values written to one submission record over its whole life on the
path the sources implement: `add_job_submission` creates it pending, the
blocking runner writes running and a terminal state for each run time it
executes, and — the runner returning normally in every case — the done
callback runs `_run_job_success`, which writes success at the end. -/
def submissionStateTrace (job : Job) (a : String) (clock : Nat → Int)
    (func : Nat → FuncResult) (runTimes : List Int) : List String :=
  "pending" :: (runJob job a clock func runTimes).stateWrites ++ ["success"]

/-- Transition discipline asserted by the specification: every state sequence
of a record is a prefix of pending, running, success, or of pending, running,
failure, or of pending, missed. -/
def isLegalTrace (tr : List String) : Bool :=
  List.isPrefixOf tr ["pending", "running", "success"] ||
    List.isPrefixOf tr ["pending", "running", "failure"] ||
    List.isPrefixOf tr ["pending", "missed"]

/-- Number of run times of the list that the blocking runner, started at loop
position `i`, actually executes — those not judged misfired. -/
def runCount (job : Job) (clock : Nat → Int) : Nat → List Int → Nat
  | _, [] => 0
  | i, t :: ts => (if misfired job (clock i) t then 0 else 1) + runCount job clock (i + 1) ts

/-- Terminal state the runner writes for one executed run time, from the
callable's outcome. -/
def terminalStateOf : FuncResult → String
  | FuncResult.ok _ => "success"
  | FuncResult.exn _ _ => "failure"

/-- Record writes the blocking runner makes, spelled out directly: nothing
for a misfired run time, and running followed by the outcome's terminal state
for an executed one. -/
def runnerStateWrites (job : Job) (clock : Nat → Int) (func : Nat → FuncResult) :
    Nat → Nat → List Int → List String
  | _, _, [] => []
  | i, k, t :: ts =>
    if misfired job (clock i) t then runnerStateWrites job clock func (i + 1) k ts
    else "running" :: terminalStateOf (func k) :: runnerStateWrites job clock func (i + 1) (k + 1) ts

theorem alistGet_set_self (m : List (String × List Nat)) (k : String) (v : List Nat) :
    alistGet (alistSet m k v) k = some v := by
  induction m with
  | nil => simp [alistSet, alistGet]
  | cons p rest ih =>
    by_cases h : p.1 = k
    · simp [alistSet, h, alistGet]
    · simp [alistSet, h, alistGet, ih]

theorem alistGet_del_self (m : List (String × List Nat)) (k : String) :
    alistGet (alistDel m k) k = none := by
  induction m with
  | nil => simp [alistDel, alistGet]
  | cons p rest ih =>
    by_cases h : p.1 = k
    · simp [alistDel, h, ih]
    · simp [alistDel, h, alistGet, ih]

theorem ddTouch_of_isSome (m : List (String × List Nat)) (k : String)
    (h : (alistGet m k).isSome) : ddTouch m k = m := by
  simp [ddTouch, h]

theorem alistGet_isSome_of_ddGet_ne_nil (m : List (String × List Nat)) (k : String)
    (h : ddGet m k ≠ []) : (alistGet m k).isSome := by
  cases hm : alistGet m k with
  | none => simp [ddGet, hm] at h
  | some l => simp

theorem getSubmissionState_append_fresh (subs : List (Nat × String)) (sid : Nat) (st : String)
    (h : getSubmissionState subs sid = none) :
    getSubmissionState (subs ++ [(sid, st)]) sid = some st := by
  induction subs with
  | nil => simp [getSubmissionState]
  | cons p rest ih =>
    by_cases hp : p.1 = sid
    · simp [getSubmissionState, hp] at h
    · simp only [getSubmissionState, hp, if_false, List.cons_append] at h ⊢
      exact ih h

theorem runJobAux_events_length (job : Job) (a : String) (clock : Nat → Int)
    (func : Nat → FuncResult) (ts : List Int) :
    ∀ i k, (runJobAux job a clock func i k ts).events.length = ts.length := by
  induction ts with
  | nil => intro i k; simp [runJobAux]
  | cons t ts ih =>
    intro i k
    cases h : misfired job (clock i) t
    · cases hf : func k
      · simp [runJobAux, h, hf, ih]
      · simp [runJobAux, h, hf, ih]
    · simp [runJobAux, h, ih]

theorem runJobAux_invocations (job : Job) (a : String) (clock : Nat → Int)
    (func : Nat → FuncResult) (ts : List Int) :
    ∀ i k, (runJobAux job a clock func i k ts).invocations = k + runCount job clock i ts := by
  induction ts with
  | nil => intro i k; simp [runJobAux, runCount]
  | cons t ts ih =>
    intro i k
    cases h : misfired job (clock i) t
    · cases hf : func k
      · simp [runJobAux, runCount, h, hf, ih]; omega
      · simp [runJobAux, runCount, h, hf, ih]; omega
    · simp [runJobAux, runCount, h, ih]

theorem runJobAux_stateWrites (job : Job) (a : String) (clock : Nat → Int)
    (func : Nat → FuncResult) (ts : List Int) :
    ∀ i k, (runJobAux job a clock func i k ts).stateWrites
      = runnerStateWrites job clock func i k ts := by
  induction ts with
  | nil => intro i k; simp [runJobAux, runnerStateWrites]
  | cons t ts ih =>
    intro i k
    cases h : misfired job (clock i) t
    · cases hf : func k
      · simp [runJobAux, runnerStateWrites, terminalStateOf, h, hf, ih]
      · simp [runJobAux, runnerStateWrites, terminalStateOf, h, hf, ih]
    · simp [runJobAux, runnerStateWrites, h, ih]

theorem runJobAux_events_split (job : Job) (a : String) (clock : Nat → Int)
    (func : Nat → FuncResult) (ts1 : List Int) :
    ∀ ts2 i k, (runJobAux job a clock func i k (ts1 ++ ts2)).events
      = (runJobAux job a clock func i k ts1).events
        ++ (runJobAux job a clock func (i + ts1.length) (k + runCount job clock i ts1) ts2).events := by
  induction ts1 with
  | nil => intro ts2 i k; simp [runJobAux, runCount]
  | cons t ts ih =>
    intro ts2 i k
    have hpos : i + (t :: ts).length = i + 1 + ts.length := by simp; omega
    cases h : misfired job (clock i) t
    · cases hf : func k
      · simp [runJobAux, runCount, h, hf, ih, hpos, Nat.add_right_comm, Nat.add_assoc,
          Nat.add_comm 1 (runCount job clock (i + 1) ts)]
      · simp [runJobAux, runCount, h, hf, ih, hpos, Nat.add_right_comm, Nat.add_assoc,
          Nat.add_comm 1 (runCount job clock (i + 1) ts)]
    · simp [runJobAux, runCount, h, ih, hpos, Nat.add_right_comm, Nat.add_assoc]

/-- Event the run loop produces for one run time, given the clock reading of
that iteration and the invocation count reached so far. -/
def eventFor (job : Job) (a : String) (now : Int) (func : Nat → FuncResult) (k : Nat)
    (t : Int) : JobExecutionEvent :=
  if misfired job now t then missedEvent job a t
  else
    match func k with
    | FuncResult.ok v => executedEvent job a t v
    | FuncResult.exn e tb => errorEvent job a t e (String.join tb)

theorem runJobAux_events_cons (job : Job) (a : String) (clock : Nat → Int)
    (func : Nat → FuncResult) (i k : Nat) (t : Int) (ts : List Int) :
    (runJobAux job a clock func i k (t :: ts)).events
      = eventFor job a (clock i) func k t
        :: (runJobAux job a clock func (i + 1)
              (if misfired job (clock i) t then k else k + 1) ts).events := by
  cases h : misfired job (clock i) t
  · cases hf : func k
    · simp [runJobAux, eventFor, h, hf]
    · simp [runJobAux, eventFor, h, hf]
  · simp [runJobAux, eventFor, h]

theorem eventFor_runTime (job : Job) (a : String) (now : Int) (func : Nat → FuncResult)
    (k : Nat) (t : Int) : (eventFor job a now func k t).runTime = t := by
  cases h : misfired job now t
  · cases hf : func k
    · simp [eventFor, h, hf, executedEvent]
    · simp [eventFor, h, hf, errorEvent]
  · simp [eventFor, h, missedEvent]

theorem eventFor_code_missed (job : Job) (a : String) (now : Int) (func : Nat → FuncResult)
    (k : Nat) (t : Int) :
    (eventFor job a now func k t).code = EventCode.missed ↔ misfired job now t = true := by
  cases h : misfired job now t
  · cases hf : func k
    · simp [eventFor, h, hf, executedEvent]
    · simp [eventFor, h, hf, errorEvent]
  · simp [eventFor, h, missedEvent]

theorem runnerStateWrites_count_running (job : Job) (clock : Nat → Int)
    (func : Nat → FuncResult) (ts : List Int) :
    ∀ i k, (runnerStateWrites job clock func i k ts).count "running"
      = runCount job clock i ts := by
  induction ts with
  | nil => intro i k; simp [runnerStateWrites, runCount]
  | cons t ts ih =>
    intro i k
    cases h : misfired job (clock i) t
    · cases hf : func k
      · simp [runnerStateWrites, runCount, terminalStateOf, h, hf, ih, List.count_cons]
        omega
      · simp [runnerStateWrites, runCount, terminalStateOf, h, hf, ih, List.count_cons]
        omega
    · simp [runnerStateWrites, runCount, h, ih]

theorem runnerStateWrites_no_missed (job : Job) (clock : Nat → Int)
    (func : Nat → FuncResult) (ts : List Int) :
    ∀ i k, "missed" ∉ runnerStateWrites job clock func i k ts := by
  induction ts with
  | nil => intro i k; simp [runnerStateWrites]
  | cons t ts ih =>
    intro i k
    cases h : misfired job (clock i) t
    · cases hf : func k
      · simp [runnerStateWrites, terminalStateOf, h, hf, ih]
      · simp [runnerStateWrites, terminalStateOf, h, hf, ih]
    · simp [runnerStateWrites, h, ih]

theorem runnerStateWrites_of_runCount_zero (job : Job) (clock : Nat → Int)
    (func : Nat → FuncResult) (ts : List Int) :
    ∀ i k, runCount job clock i ts = 0 → runnerStateWrites job clock func i k ts = [] := by
  induction ts with
  | nil => intro i k _; simp [runnerStateWrites]
  | cons t ts ih =>
    intro i k hz
    cases h : misfired job (clock i) t
    · rw [runCount, h] at hz; simp at hz
    · rw [runCount, h] at hz
      simp only [if_true] at hz
      simp [runnerStateWrites, h, ih _ _ (by omega : runCount job clock (i + 1) ts = 0)]

theorem runJobAux_no_missed_of_none (job : Job) (a : String) (clock : Nat → Int)
    (func : Nat → FuncResult) (hnone : job.misfireGraceTime = none) (ts : List Int) :
    ∀ i k ev, ev ∈ (runJobAux job a clock func i k ts).events
      → ev.code ≠ EventCode.missed := by
  induction ts with
  | nil => intro i k ev hev; simp [runJobAux] at hev
  | cons t ts ih =>
    intro i k ev hev
    have h : misfired job (clock i) t = false := by simp [misfired, hnone]
    cases hf : func k
    · rw [runJobAux_events_cons] at hev
      rcases List.mem_cons.mp hev with h0 | h1
      · subst h0; simp [eventFor, h, hf, executedEvent]
      · exact ih _ _ _ h1
    · rw [runJobAux_events_cons] at hev
      rcases List.mem_cons.mp hev with h0 | h1
      · subst h0; simp [eventFor, h, hf, errorEvent]
      · exact ih _ _ _ h1

theorem releaseInstance_spec (m : List (String × List Nat)) (jobId : String) (sid : Nat)
    (hcount : (ddGet m jobId).count sid = 1) :
    sid ∉ ddGet (releaseInstance m jobId sid) jobId ∧
    ((ddGet m jobId).erase sid = [] →
      alistGet (releaseInstance m jobId sid) jobId = none) ∧
    ((ddGet m jobId).erase sid ≠ [] →
      ddGet (releaseInstance m jobId sid) jobId = (ddGet m jobId).erase sid) := by
  have hmem : sid ∈ ddGet m jobId := by
    have := List.count_pos_iff.mp (by omega : 0 < (ddGet m jobId).count sid)
    exact this
  have hne : ddGet m jobId ≠ [] := by
    intro hnil; rw [hnil] at hmem; simp at hmem
  have htouch : ddTouch m jobId = m :=
    ddTouch_of_isSome m jobId (alistGet_isSome_of_ddGet_ne_nil m jobId hne)
  have herase : sid ∉ (ddGet m jobId).erase sid := by
    have h2 := List.count_erase_self sid (ddGet m jobId)
    rw [hcount] at h2
    intro hmem2
    have h3 := List.count_pos_iff.mpr hmem2
    omega
  by_cases hlen : ((ddGet m jobId).erase sid).length = 0
  · have hnil : (ddGet m jobId).erase sid = [] := List.length_eq_zero.mp hlen
    have hrel : releaseInstance m jobId sid = alistDel m jobId := by
      rw [releaseInstance, if_pos hlen, htouch]
    refine ⟨?_, fun _ => ?_, fun hcontra => absurd hnil hcontra⟩
    · rw [hrel]; simp [ddGet, alistGet_del_self]
    · rw [hrel]; exact alistGet_del_self m jobId
  · have hrel : releaseInstance m jobId sid
        = alistSet m jobId ((ddGet m jobId).erase sid) := by
      rw [releaseInstance, if_neg hlen, htouch]
    have hget : ddGet (releaseInstance m jobId sid) jobId = (ddGet m jobId).erase sid := by
      rw [hrel]; simp [ddGet, alistGet_set_self]
    refine ⟨?_, fun hnil => absurd (by rw [hnil]; rfl) hlen, fun _ => hget⟩
    rw [hget]; exact herase

theorem submitJob_refuse (sup : Bool) (job : Job) (s : ExecState)
    (hpos : 1 ≤ job.maxInstances)
    (hfull : job.maxInstances ≤ (ddGet s.instances job.id).length) :
    submitJob sup job s
      = (Except.error (SubmitErr.maxInstancesReached job.id job.maxInstances
          (mkMaxInstancesMessage job.id job.maxInstances)), s) := by
  have hne : ddGet s.instances job.id ≠ [] := by
    intro hnil
    rw [hnil] at hfull
    simp at hfull
    omega
  have htouch : ddTouch s.instances job.id = s.instances :=
    ddTouch_of_isSome _ _ (alistGet_isSome_of_ddGet_ne_nil _ _ hne)
  simp only [submitJob]
  rw [if_pos hfull, htouch]

theorem submitJob_admitted (sup : Bool) (job : Job) (s : ExecState)
    (hroom : (ddGet s.instances job.id).length < job.maxInstances) :
    submitJob sup job s
      = ((match doSubmitJobOnLoop sup job with
          | Except.ok _ => Except.ok none
          | Except.error msg => Except.error (SubmitErr.dispatch msg)),
         { s with
           instances := alistSet (ddTouch s.instances job.id) job.id
             (ddGet s.instances job.id ++ [s.nextSubmissionId])
           submissions := s.submissions ++ [(s.nextSubmissionId, "pending")]
           nextSubmissionId := s.nextSubmissionId + 1 }) := by
  simp only [submitJob]
  rw [if_neg (not_le.mpr hroom)]
  cases doSubmitJobOnLoop sup job <;> rfl

/-- C1: the ceiling check and the admission of `submit_job` form one step of
the lock-protected critical section, modelled as a single state transition:
when the in-flight list recorded for the job id has already reached
`job.max_instances` (a positive ceiling, per the job model), the function
raises `MaxInstancesReachedError` carrying the job id, the ceiling and the
message formatted from both, and the executor state — records, entries and
all — is left exactly as it was; otherwise the fresh submission id is
appended to the job's entry. -/
theorem submit_job_ceiling_atomic (sup : Bool) (job : Job) (s : ExecState)
    (hpos : 1 ≤ job.maxInstances) :
    (job.maxInstances ≤ (ddGet s.instances job.id).length →
      submitJob sup job s
        = (Except.error (SubmitErr.maxInstancesReached job.id job.maxInstances
            (mkMaxInstancesMessage job.id job.maxInstances)), s)) ∧
    ((ddGet s.instances job.id).length < job.maxInstances →
      ddGet (submitJob sup job s).2.instances job.id
        = ddGet s.instances job.id ++ [s.nextSubmissionId]) := by
  constructor
  · intro hfull
    exact submitJob_refuse sup job s hpos hfull
  · intro hroom
    rw [submitJob_admitted sup job s hroom]
    simp [ddGet, alistGet_set_self]

def jobFull : Job := { id := "alpha", maxInstances := 1, misfireGraceTime := none, isCoroutine := false }

def stFull : ExecState :=
  { instances := [("alpha", [7])], submissions := [(7, "pending")], nextSubmissionId := 8,
    dispatched := [] }

theorem submit_job_ceiling_atomic_witness :
    1 ≤ jobFull.maxInstances ∧
    jobFull.maxInstances ≤ (ddGet stFull.instances jobFull.id).length ∧
    submitJob true jobFull stFull
      = (Except.error (SubmitErr.maxInstancesReached "alpha" 1
          (mkMaxInstancesMessage "alpha" 1)), stFull) :=
  ⟨by decide, by decide,
    (submit_job_ceiling_atomic true jobFull stFull (by decide)).1 (by decide)⟩

/-- C8 counterexample: this admitted submission creates the pending record
with id 0, yet `submit_job`, which has no return statement, evaluates to
`None` and not to that submission id. -/
theorem submit_job_return_counterexample :
    (submitJob true jobFull { stFull with instances := [] }).1 = Except.ok none ∧
    (submitJob true jobFull { stFull with instances := [] }).2.submissions
      = [(7, "pending"), (8, "pending")] ∧
    (submitJob true jobFull { stFull with instances := [] }).1 ≠ Except.ok (some 8) := by
  refine ⟨rfl, rfl, ?_⟩
  intro h
  rw [show (submitJob true jobFull { stFull with instances := [] }).1 = Except.ok none
    from rfl] at h
  exact Option.noConfusion (Except.ok.inj h)

/-- C8 amended: a successful (non-rejected, successfully dispatched) call of
`submit_job` returns `None`; the identifier assigned when the pending record
was created is not returned but is recorded on the new pending record and in
the job's Instance Tracker entry. -/
theorem submit_job_success_returns_none (sup : Bool) (job : Job) (s : ExecState)
    (hroom : (ddGet s.instances job.id).length < job.maxInstances)
    (hdisp : doSubmitJobOnLoop sup job = Except.ok ())
    (hfresh : getSubmissionState s.submissions s.nextSubmissionId = none) :
    (submitJob sup job s).1 = Except.ok none ∧
    getSubmissionState (submitJob sup job s).2.submissions s.nextSubmissionId
      = some "pending" ∧
    s.nextSubmissionId ∈ ddGet (submitJob sup job s).2.instances job.id := by
  rw [submitJob_admitted sup job s hroom, hdisp]
  refine ⟨rfl, getSubmissionState_append_fresh s.submissions s.nextSubmissionId "pending" hfresh, ?_⟩
  simp [ddGet, alistGet_set_self]

theorem submit_job_success_returns_none_witness :
    (ddGet ({ stFull with instances := [] } : ExecState).instances jobFull.id).length
        < jobFull.maxInstances ∧
    doSubmitJobOnLoop true jobFull = Except.ok () ∧
    getSubmissionState ({ stFull with instances := [] } : ExecState).submissions 8 = none ∧
    ((submitJob true jobFull { stFull with instances := [] }).1 = Except.ok none ∧
      getSubmissionState (submitJob true jobFull { stFull with instances := [] }).2.submissions 8
        = some "pending" ∧
      8 ∈ ddGet (submitJob true jobFull { stFull with instances := [] }).2.instances jobFull.id) :=
  ⟨by decide, rfl, by decide,
    submit_job_success_returns_none true jobFull { stFull with instances := [] }
      (by decide) rfl (by decide)⟩

def jobCoro : Job := { id := "gamma", maxInstances := 1, misfireGraceTime := none, isCoroutine := true }

/-- C7 counterexample: with no coroutine support (the Trollius fallback), the
dispatch failure for this coroutine job is raised out of `submit_job`, but
the submission record it had just created still says pending — it is never
marked failure — and the Instance Tracker entry still holds the submission
id, which is never released. -/
theorem dispatch_failure_counterexample :
    (submitJob false jobCoro { stFull with instances := [], submissions := [] }).1
      = Except.error (SubmitErr.dispatch trolliusMessage) ∧
    getSubmissionState
      (submitJob false jobCoro { stFull with instances := [], submissions := [] }).2.submissions 8
      = some "pending" ∧
    some "pending" ≠ some "failure" ∧
    ddGet (submitJob false jobCoro
      { stFull with instances := [], submissions := [] }).2.instances "gamma" = [8] := by
  refine ⟨rfl, rfl, by decide, rfl⟩

/-- C7 amended: when the event-loop backend cannot execute a coroutine
callable, the failure is reported synchronously as the exception value of
`submit_job` itself and no runner executes for it; but the submission record
remains pending rather than being marked failure, and the Instance Tracker
entry is not released, so the failed submission keeps occupying the job's
concurrency ceiling. -/
theorem dispatch_failure_sync_pending (job : Job) (s : ExecState)
    (hco : job.isCoroutine = true)
    (hroom : (ddGet s.instances job.id).length < job.maxInstances)
    (hfresh : getSubmissionState s.submissions s.nextSubmissionId = none) :
    (submitJob false job s).1 = Except.error (SubmitErr.dispatch trolliusMessage) ∧
    getSubmissionState (submitJob false job s).2.submissions s.nextSubmissionId
      = some "pending" ∧
    s.nextSubmissionId ∈ ddGet (submitJob false job s).2.instances job.id := by
  have hdisp : doSubmitJobOnLoop false job = Except.error trolliusMessage := by
    simp [doSubmitJobOnLoop, hco]
  rw [submitJob_admitted false job s hroom, hdisp]
  refine ⟨rfl, getSubmissionState_append_fresh s.submissions s.nextSubmissionId "pending" hfresh, ?_⟩
  simp [ddGet, alistGet_set_self]

theorem dispatch_failure_sync_pending_witness :
    jobCoro.isCoroutine = true ∧
    (ddGet ({ stFull with instances := [], submissions := [] } : ExecState).instances
        jobCoro.id).length < jobCoro.maxInstances ∧
    getSubmissionState
      ({ stFull with instances := [], submissions := [] } : ExecState).submissions 8 = none ∧
    ((submitJob false jobCoro { stFull with instances := [], submissions := [] }).1
        = Except.error (SubmitErr.dispatch trolliusMessage) ∧
      getSubmissionState
        (submitJob false jobCoro
          { stFull with instances := [], submissions := [] }).2.submissions 8
        = some "pending" ∧
      8 ∈ ddGet (submitJob false jobCoro
        { stFull with instances := [], submissions := [] }).2.instances jobCoro.id) :=
  ⟨by decide, by decide, by decide,
    dispatch_failure_sync_pending jobCoro { stFull with instances := [], submissions := [] }
      (by decide) (by decide) (by decide)⟩

/-- C2: for an admitted submission — its id recorded once in the job's entry
— whichever way the runner call completes (returning its events normally,
which includes a batch that is entirely misfired, or raising), the completion
handling removes the id from the Instance Tracker exactly once, deletes the
job's entry when the removal empties it, and forwards every event the runner
returned to the scheduler for dispatch, in order; a raised completion
returned no events and forwards none. -/
theorem completion_releases_once (s : ExecState) (jobId : String) (sid : Nat)
    (c : Completion)
    (hcount : (ddGet s.instances jobId).count sid = 1) :
    ∃ s2, handleCompletion s jobId sid c = Except.ok s2 ∧
      sid ∉ ddGet s2.instances jobId ∧
      ((ddGet s.instances jobId).erase sid = [] → alistGet s2.instances jobId = none) ∧
      ((ddGet s.instances jobId).erase sid ≠ [] →
        ddGet s2.instances jobId = (ddGet s.instances jobId).erase sid) ∧
      (∀ events, c = Completion.normal events → s2.dispatched = s.dispatched ++ events) ∧
      (∀ e, c = Completion.raised e → s2.dispatched = s.dispatched) := by
  have hmem : sid ∈ ddGet s.instances jobId := List.count_pos_iff.mp (by omega)
  obtain ⟨h1, h2, h3⟩ := releaseInstance_spec s.instances jobId sid hcount
  cases c with
  | normal events =>
    refine ⟨{ s with
        instances := releaseInstance s.instances jobId sid
        submissions := setSubmissionState s.submissions sid "success"
        dispatched := s.dispatched ++ events }, ?_, h1, h2, h3, ?_, ?_⟩
    · simp [handleCompletion, runJobSuccessHandler, hmem]
    · intro evs hevs
      injection hevs with h
      rw [h]
    · intro e he
      exact Completion.noConfusion he
  | raised exc =>
    refine ⟨{ s with
        instances := releaseInstance s.instances jobId sid
        submissions := setSubmissionState s.submissions sid "failure" }, ?_, h1, h2, h3, ?_, ?_⟩
    · simp [handleCompletion, runJobErrorHandler, hmem]
    · intro evs hevs
      exact Completion.noConfusion hevs
    · intro e he
      rfl

def stRel : ExecState :=
  { instances := [("alpha", [5])], submissions := [(5, "running")], nextSubmissionId := 6,
    dispatched := [] }

theorem completion_releases_once_witness :
    (ddGet stRel.instances "alpha").count 5 = 1 ∧
    ∃ s2, handleCompletion stRel "alpha" 5 (Completion.normal [missedEvent jobFull "default" 50])
        = Except.ok s2 ∧
      5 ∉ ddGet s2.instances "alpha" ∧
      s2.dispatched = [missedEvent jobFull "default" 50] :=
  ⟨by decide, by
    obtain ⟨s2, ha, hb, -, -, hd, -⟩ :=
      completion_releases_once stRel "alpha" 5
        (Completion.normal [missedEvent jobFull "default" 50]) (by decide)
    exact ⟨s2, ha, hb, hd _ rfl⟩⟩

/-- C3: with a grace period configured, the blocking runner produces exactly
one event per run time, in list position order: decomposing the run time list
around any position, the event at that position concerns that run time, and
it is a missed event precisely when the lateness read at that iteration
exceeds the grace strictly; misfired run times are skipped without invoking
the callable (the invocation count equals the number of non-misfired run
times) and without a running transition (so do the running writes). The
spec's scenario — t1 within grace, t2 beyond it, t3 within — is the witness's
instantiation of the decomposition at each of the three positions. -/
theorem run_job_order_and_misfire (job : Job) (a : String) (clock : Nat → Int)
    (func : Nat → FuncResult) (g : Nat) (hg : job.misfireGraceTime = some g)
    (ts1 : List Int) (t : Int) (ts2 : List Int) :
    (runJob job a clock func (ts1 ++ t :: ts2)).events.length
      = ts1.length + 1 + ts2.length ∧
    (∃ pre ev post,
      (runJob job a clock func (ts1 ++ t :: ts2)).events = pre ++ ev :: post ∧
      pre.length = ts1.length ∧ post.length = ts2.length ∧ ev.runTime = t ∧
      (ev.code = EventCode.missed ↔ clock ts1.length - t > (g : Int))) ∧
    (runJob job a clock func (ts1 ++ t :: ts2)).invocations
      = runCount job clock 0 (ts1 ++ t :: ts2) ∧
    (runJob job a clock func (ts1 ++ t :: ts2)).stateWrites.count "running"
      = runCount job clock 0 (ts1 ++ t :: ts2) := by
  refine ⟨?_, ?_, ?_, ?_⟩
  · rw [runJob, runJobAux_events_length]
    simp
    omega
  · rw [runJob, runJobAux_events_split job a clock func ts1 (t :: ts2) 0 0,
      runJobAux_events_cons]
    simp only [Nat.zero_add]
    refine ⟨(runJobAux job a clock func 0 0 ts1).events, _, _, rfl,
      runJobAux_events_length job a clock func ts1 0 0,
      runJobAux_events_length job a clock func ts2 _ _,
      eventFor_runTime job a (clock ts1.length) func (runCount job clock 0 ts1) t, ?_⟩
    rw [eventFor_code_missed]
    simp [misfired, hg]
  · rw [runJob, runJobAux_invocations]
    simp
  · rw [runJob, runJobAux_stateWrites, runnerStateWrites_count_running]

def jobGrace : Job :=
  { id := "delta", maxInstances := 1, misfireGraceTime := some 5, isCoroutine := false }

def clock100 : Nat → Int := fun _ => 100

def funcOk : Nat → FuncResult := fun _ => FuncResult.ok PyVal.vnone

theorem run_job_order_and_misfire_witness :
    jobGrace.misfireGraceTime = some 5 ∧
    ((runJob jobGrace "d" clock100 funcOk ([96] ++ 90 :: [97])).events.length
        = 1 + 1 + 1 ∧
      (∃ pre ev post,
        (runJob jobGrace "d" clock100 funcOk ([96] ++ 90 :: [97])).events
          = pre ++ ev :: post ∧
        pre.length = 1 ∧ post.length = 1 ∧ ev.runTime = 90 ∧
        (ev.code = EventCode.missed ↔ clock100 1 - 90 > (5 : Int))) ∧
      (runJob jobGrace "d" clock100 funcOk ([96] ++ 90 :: [97])).invocations
        = runCount jobGrace clock100 0 ([96] ++ 90 :: [97]) ∧
      (runJob jobGrace "d" clock100 funcOk ([96] ++ 90 :: [97])).stateWrites.count "running"
        = runCount jobGrace clock100 0 ([96] ++ 90 :: [97])) :=
  ⟨rfl, run_job_order_and_misfire jobGrace "d" clock100 funcOk 5 rfl [96] 90 [97]⟩

/-- C5: an exception raised by the job's callable never escapes either
runner. When the callable raises at a non-misfired run time of the blocking
runner, the event at that position is an error event carrying the exception
object and the joined traceback lines, and the batch still completes with one
event per run time (processing continues past the exception, and the runner
itself — a total function here — returns its events normally). The
suspending runner converts a raised outcome into a single error event with
the same payload. -/
theorem callable_exception_contained (job : Job) (a : String) (clock : Nat → Int)
    (func fc : Nat → FuncResult) (ts1 : List Int) (t : Int) (ts2 : List Int)
    (e : PyExc) (tb : List String)
    (hm : misfired job (clock ts1.length) t = false)
    (hf : func (runCount job clock 0 ts1) = FuncResult.exn e tb)
    (hfc : fc 0 = FuncResult.exn e tb) :
    (∃ pre post,
      (runJob job a clock func (ts1 ++ t :: ts2)).events
        = pre ++ errorEvent job a t e (String.join tb) :: post ∧
      pre.length = ts1.length ∧ post.length = ts2.length) ∧
    (runJob job a clock func (ts1 ++ t :: ts2)).events.length
      = ts1.length + 1 + ts2.length ∧
    (runCoroutineJob job a fc t).events = [errorEvent job a t e (String.join tb)] := by
  refine ⟨?_, ?_, ?_⟩
  · rw [runJob, runJobAux_events_split job a clock func ts1 (t :: ts2) 0 0,
      runJobAux_events_cons]
    simp only [Nat.zero_add]
    rw [show eventFor job a (clock ts1.length) func (runCount job clock 0 ts1) t
        = errorEvent job a t e (String.join tb) by simp [eventFor, hm, hf]]
    exact ⟨(runJobAux job a clock func 0 0 ts1).events, _, rfl,
      runJobAux_events_length job a clock func ts1 0 0,
      runJobAux_events_length job a clock func ts2 _ _⟩
  · rw [runJob, runJobAux_events_length]
    simp
    omega
  · simp [runCoroutineJob, hfc]

def excBoom : PyExc := { clsName := "ValueError", msg := "boom" }

def funcExn : Nat → FuncResult := fun _ => FuncResult.exn excBoom ["  File line 1\n"]

theorem callable_exception_contained_witness :
    misfired jobFull (clock100 0) 50 = false ∧
    funcExn (runCount jobFull clock100 0 []) = FuncResult.exn excBoom ["  File line 1\n"] ∧
    funcExn 0 = FuncResult.exn excBoom ["  File line 1\n"] ∧
    ((∃ pre post,
        (runJob jobFull "d" clock100 funcExn ([] ++ 50 :: [])).events
          = pre ++ errorEvent jobFull "d" 50 excBoom (String.join ["  File line 1\n"]) :: post ∧
        pre.length = List.length ([] : List Int) ∧ post.length = List.length ([] : List Int)) ∧
      (runJob jobFull "d" clock100 funcExn ([] ++ 50 :: [])).events.length
        = List.length ([] : List Int) + 1 + List.length ([] : List Int) ∧
      (runCoroutineJob jobFull "d" funcExn 50).events
        = [errorEvent jobFull "d" 50 excBoom (String.join ["  File line 1\n"])]) :=
  ⟨by decide, by decide, by decide,
    callable_exception_contained jobFull "d" clock100 funcExn funcExn [] 50 []
      excBoom ["  File line 1\n"] (by decide) (by decide) (by decide)⟩

/-- C9: round trip of the return value: when the callable returns normally at
a non-misfired run time, the event emitted at that position is the executed
event whose payload is exactly the returned value — in the blocking runner,
and likewise (as the single produced event) in the suspending runner. -/
theorem executed_event_roundtrip (job : Job) (a : String) (clock : Nat → Int)
    (func fc : Nat → FuncResult) (ts1 : List Int) (t : Int) (ts2 : List Int) (v : PyVal)
    (hm : misfired job (clock ts1.length) t = false)
    (hf : func (runCount job clock 0 ts1) = FuncResult.ok v)
    (hfc : fc 0 = FuncResult.ok v) :
    (∃ pre post,
      (runJob job a clock func (ts1 ++ t :: ts2)).events
        = pre ++ executedEvent job a t v :: post ∧
      pre.length = ts1.length ∧ (executedEvent job a t v).retval = some v) ∧
    (runCoroutineJob job a fc t).events = [executedEvent job a t v] := by
  refine ⟨?_, ?_⟩
  · rw [runJob, runJobAux_events_split job a clock func ts1 (t :: ts2) 0 0,
      runJobAux_events_cons]
    simp only [Nat.zero_add]
    rw [show eventFor job a (clock ts1.length) func (runCount job clock 0 ts1) t
        = executedEvent job a t v by simp [eventFor, hm, hf]]
    exact ⟨(runJobAux job a clock func 0 0 ts1).events, _, rfl,
      runJobAux_events_length job a clock func ts1 0 0, rfl⟩
  · simp [runCoroutineJob, hfc]

def func42 : Nat → FuncResult := fun _ => FuncResult.ok (PyVal.vint 42)

theorem executed_event_roundtrip_witness :
    misfired jobGrace (clock100 1) 98 = false ∧
    func42 (runCount jobGrace clock100 0 [97]) = FuncResult.ok (PyVal.vint 42) ∧
    func42 0 = FuncResult.ok (PyVal.vint 42) ∧
    ((∃ pre post,
        (runJob jobGrace "d" clock100 func42 ([97] ++ 98 :: [])).events
          = pre ++ executedEvent jobGrace "d" 98 (PyVal.vint 42) :: post ∧
        pre.length = 1 ∧
        (executedEvent jobGrace "d" 98 (PyVal.vint 42)).retval = some (PyVal.vint 42)) ∧
      (runCoroutineJob jobGrace "d" func42 98).events
        = [executedEvent jobGrace "d" 98 (PyVal.vint 42)]) :=
  ⟨by decide, by decide, by decide, by
    have h := executed_event_roundtrip jobGrace "d" clock100 func42 func42 [97] 98 []
      (PyVal.vint 42) (by decide) (by decide) (by decide)
    simpa using h⟩

/-- C10: boundary of the misfire check: with a grace of g, a run time whose
lateness at its loop iteration equals g exactly is not judged missed — the
missed branch requires strictly greater lateness — so its event is an
executed or error event for that run time; and with `misfire_grace_time`
unset no event of any batch is ever a missed event. -/
theorem misfire_boundary (job jobN : Job) (a aN : String) (clock clockN : Nat → Int)
    (func funcN : Nat → FuncResult) (g : Nat) (hg : job.misfireGraceTime = some g)
    (ts1 : List Int) (t : Int) (ts2 : List Int)
    (hb : clock ts1.length - t = (g : Int))
    (hnone : jobN.misfireGraceTime = none) (rtsN : List Int) :
    (∃ pre ev post,
      (runJob job a clock func (ts1 ++ t :: ts2)).events = pre ++ ev :: post ∧
      pre.length = ts1.length ∧ ev.runTime = t ∧ ev.code ≠ EventCode.missed) ∧
    (∀ ev ∈ (runJob jobN aN clockN funcN rtsN).events, ev.code ≠ EventCode.missed) := by
  have hm : misfired job (clock ts1.length) t = false := by
    simp [misfired, hg, hb]
  refine ⟨?_, ?_⟩
  · rw [runJob, runJobAux_events_split job a clock func ts1 (t :: ts2) 0 0,
      runJobAux_events_cons]
    simp only [Nat.zero_add]
    refine ⟨(runJobAux job a clock func 0 0 ts1).events, _, _, rfl,
      runJobAux_events_length job a clock func ts1 0 0,
      eventFor_runTime job a (clock ts1.length) func (runCount job clock 0 ts1) t, ?_⟩
    intro hc
    rw [eventFor_code_missed] at hc
    rw [hm] at hc
    exact Bool.noConfusion hc
  · intro ev hev
    exact runJobAux_no_missed_of_none jobN aN clockN funcN hnone rtsN 0 0 ev hev

theorem misfire_boundary_witness :
    jobGrace.misfireGraceTime = some 5 ∧
    clock100 0 - 95 = (5 : Int) ∧
    jobFull.misfireGraceTime = none ∧
    ((∃ pre ev post,
        (runJob jobGrace "d" clock100 funcOk ([] ++ 95 :: [])).events = pre ++ ev :: post ∧
        pre.length = List.length ([] : List Int) ∧ ev.runTime = 95 ∧
        ev.code ≠ EventCode.missed) ∧
      (∀ ev ∈ (runJob jobFull "d" clock100 funcOk [0]).events,
        ev.code ≠ EventCode.missed)) :=
  ⟨rfl, by decide, rfl,
    misfire_boundary jobGrace jobFull "d" "d" clock100 clock100 funcOk funcOk 5 rfl
      [] 95 [] (by decide) rfl [0]⟩

def jobCoroGrace : Job :=
  { id := "eps", maxInstances := 1, misfireGraceTime := some 5, isCoroutine := true }

/-- C6 counterexample: on the same job, context and one overdue run time, the
blocking runner judges a misfire, emits a missed event and never invokes the
callable, while the suspending runner — which has no misfire check and no
running transition at all — invokes it and emits an executed event: the two
variants do not produce the same event sequence, so they do not satisfy the
same contract. -/
theorem runner_variants_differ_counterexample :
    (runJob jobCoroGrace "d" clock100 func42 [80]).events
      = [missedEvent jobCoroGrace "d" 80] ∧
    (runJob jobCoroGrace "d" clock100 func42 [80]).invocations = 0 ∧
    (runCoroutineJob jobCoroGrace "d" func42 80).events
      = [executedEvent jobCoroGrace "d" 80 (PyVal.vint 42)] ∧
    (runCoroutineJob jobCoroGrace "d" func42 80).invocations = 1 ∧
    (runCoroutineJob jobCoroGrace "d" func42 80).stateWrites = [] ∧
    (runJob jobCoroGrace "d" clock100 func42 [80]).events
      ≠ (runCoroutineJob jobCoroGrace "d" func42 80).events := by
  decide

/-- C6 amended: the two runner variants agree only on event production for a
run time that cannot be judged misfired: for a job with no grace period and a
single run time they produce the same single event, with the same payload
mapping from the callable's outcome. They do not satisfy the rest of the
claimed common contract: only the blocking variant evaluates the misfire
policy and transitions the record — writing running before the terminal state
— while the suspending variant writes no states at all. -/
theorem runner_variants_events_agree (job : Job) (a : String) (clock : Nat → Int)
    (func : Nat → FuncResult) (t : Int)
    (hnone : job.misfireGraceTime = none) :
    (runJob job a clock func [t]).events = (runCoroutineJob job a func t).events ∧
    (runJob job a clock func [t]).stateWrites = ["running", terminalStateOf (func 0)] ∧
    (runCoroutineJob job a func t).stateWrites = [] := by
  have hm : misfired job (clock 0) t = false := by simp [misfired, hnone]
  cases hf : func 0 with
  | ok v => simp [runJob, runJobAux, runCoroutineJob, terminalStateOf, hm, hf]
  | exn e tb => simp [runJob, runJobAux, runCoroutineJob, terminalStateOf, hm, hf]

theorem runner_variants_events_agree_witness :
    jobFull.misfireGraceTime = none ∧
    ((runJob jobFull "d" clock100 func42 [60]).events
        = (runCoroutineJob jobFull "d" func42 60).events ∧
      (runJob jobFull "d" clock100 func42 [60]).stateWrites
        = ["running", terminalStateOf (func42 0)] ∧
      (runCoroutineJob jobFull "d" func42 60).stateWrites = []) :=
  ⟨rfl, runner_variants_events_agree jobFull "d" clock100 func42 60 rfl⟩

def funcFailThenOk : Nat → FuncResult :=
  fun k => if k = 0 then FuncResult.exn excBoom ["tb"] else FuncResult.ok PyVal.vnone

/-- C4 counterexample: a batch of two in-grace run times whose first
invocation raises and whose second returns gives the record the write
sequence pending, running, failure, running, success, success — the record
re-enters running after a terminal state and reaches success after failure,
and the sequence is a prefix of none of the chains the claim allows. -/
theorem submission_state_counterexample :
    submissionStateTrace jobGrace "d" clock100 funcFailThenOk [97, 98]
      = ["pending", "running", "failure", "running", "success", "success"] ∧
    isLegalTrace (submissionStateTrace jobGrace "d" clock100 funcFailThenOk [97, 98])
      = false := by
  decide

/-- C4 amended: the writes a submission record actually receives are pending
at creation; then, for each run time that is not misfired, running followed
by that invocation's terminal state (success or failure); and finally the
success that `_run_job_success` writes when the runner's normal return
completes. So the state is not monotonic across a batch, success follows
failure whenever a later invocation succeeds after an earlier one fails, and
the missed state is never written: a batch whose every run time is misfired
ends with the record in state success — not the claimed missed — with the
callable never invoked. -/
theorem submission_state_trace_shape (job : Job) (a : String) (clock : Nat → Int)
    (func : Nat → FuncResult) (rts : List Int) :
    submissionStateTrace job a clock func rts
      = "pending" :: runnerStateWrites job clock func 0 0 rts ++ ["success"] ∧
    "missed" ∉ submissionStateTrace job a clock func rts ∧
    (runCount job clock 0 rts = 0 →
      submissionStateTrace job a clock func rts = ["pending", "success"] ∧
      (runJob job a clock func rts).invocations = 0) := by
  have hw : (runJob job a clock func rts).stateWrites
      = runnerStateWrites job clock func 0 0 rts :=
    runJobAux_stateWrites job a clock func rts 0 0
  refine ⟨?_, ?_, ?_⟩
  · rw [submissionStateTrace, hw]
  · rw [submissionStateTrace, hw]
    intro hmem
    rcases List.mem_cons.mp hmem with h | h
    · exact absurd h (by decide)
    · rcases List.mem_append.mp h with h2 | h2
      · exact runnerStateWrites_no_missed job clock func rts 0 0 h2
      · exact absurd (List.mem_singleton.mp h2) (by decide)
  · intro hz
    constructor
    · rw [submissionStateTrace, hw, runnerStateWrites_of_runCount_zero job clock func rts 0 0 hz]
      rfl
    · rw [runJob, runJobAux_invocations]
      simpa using hz

theorem submission_state_trace_shape_witness :
    runCount jobGrace clock100 0 [80] = 0 ∧
    submissionStateTrace jobGrace "d" clock100 func42 [80] = ["pending", "success"] ∧
    (runJob jobGrace "d" clock100 func42 [80]).invocations = 0 :=
  ⟨by decide,
    ((submission_state_trace_shape jobGrace "d" clock100 func42 [80]).2.2 (by decide)).1,
    ((submission_state_trace_shape jobGrace "d" clock100 func42 [80]).2.2 (by decide)).2⟩

end APScheduler
